/-
Verification of the pool allocator in `headers/lpool.hpp` (`llib::PoolAllocator<T>`).

Shallow embedding.  Machine addresses and `usize` values are modelled as `Nat`;
the null pointer is the address `0`.  The only memory the allocator itself ever
reads or writes is the leading machine word of a chunk (the `Chunk::next`
field), so the heap is modelled as a word-valued map `Nat → Nat` giving, for
every address, the word currently stored at that address.  `usize` arithmetic
wraps modulo `2 ^ 64`; address arithmetic (pointer offsets) is kept in plain
`Nat`, since pointer overflow is undefined behaviour in the source language and
never arises in defined executions.

The backing allocator (`std::malloc`) is modelled as an oracle
`malloc : Nat → Nat` mapping a requested size to the base address of the block
it hands out, with `0` meaning the request failed.  `std::calloc`'s result for
the block table is likewise passed in as a plain address parameter.

The members of `PoolAllocator<T>` become the fields of `PoolState`:
  - `m_chunk_size`          : `usize const m_chunk_size = sizeof(T)`
  - `m_chunks_per_block`    : `usize m_chunks_per_block`
  - `m_max_blocks`          : `usize m_max_blocks`
  - `m_current_block_index` : `usize m_current_block_index`
  - `m_blocks_ptr`          : the address value of `Chunk **m_blocks`
  - `m_blocks`              : the contents of the `m_blocks` array
  - `m_alloc`               : `Chunk *m_alloc` (the free-list head; 0 = null)
  - `mem`                   : the surrounding heap of chunk words
-/
import Mathlib

set_option maxHeartbeats 1000000

/-- The modulus of `usize` (`size_t`) arithmetic on the 64-bit target,
`2 ^ 64`. -/
def USIZE : Nat := 18446744073709551616

/-- Store word `v` at address `a` in heap `m`. -/
def writeMem (m : Nat → Nat) (a v : Nat) : Nat → Nat :=
  fun x => if x = a then v else m x

/-- The state of one `llib::PoolAllocator<T>` instance together with the heap
words it manipulates. -/
structure PoolState where
  m_chunk_size : Nat
  m_chunks_per_block : Nat
  m_max_blocks : Nat
  m_current_block_index : Nat
  m_blocks_ptr : Nat
  m_blocks : Nat → Nat
  m_alloc : Nat
  mem : Nat → Nat

/-- The constructor `PoolAllocator(chunks_per_block, max_blocks)`.
`csz` is `sizeof(T)`; `tbl` is the address returned by
`std::calloc(max_blocks, sizeof(ptr))` (0 when that call failed); `mem0` is the
ambient heap.  The constructor stores both capacity arguments as given, records
the `calloc` result without checking it, and sets `m_current_block_index = 0`
and `m_alloc = nullptr`.  The logical table contents start all-zero because
`calloc` zero-fills. -/
def construct (csz cpb mb tbl : Nat) (mem0 : Nat → Nat) : PoolState :=
  { m_chunk_size := csz
    m_chunks_per_block := cpb
    m_max_blocks := mb
    m_current_block_index := 0
    m_blocks_ptr := tbl
    m_blocks := fun _ => 0
    m_alloc := 0
    mem := mem0 }

/-- The trip count of the chunk-chaining loop in `_allocate_block`:
`for (usize i = 0; i < m_chunks_per_block - 1; ++i)`, where the bound
`m_chunks_per_block - 1` is computed in wrapping `usize` arithmetic. -/
def loopBound (cpb : Nat) : Nat := (cpb + (USIZE - 1)) % USIZE

/-- `usize const block_size = m_chunks_per_block * m_chunk_size`, in wrapping
`usize` arithmetic. -/
def blockSize (cpb csz : Nat) : Nat := (cpb * csz) % USIZE

/-- The address `std::malloc(block_size)` returns for the next block request of
state `s` (0 = allocation failure). -/
def mallocResult (malloc : Nat → Nat) (s : PoolState) : Nat :=
  malloc (blockSize s.m_chunks_per_block s.m_chunk_size)

/-- The chunk-chaining loop of `_allocate_block`:
`chunk->next = (Chunk *)((char *)chunk + m_chunk_size); chunk = chunk->next;`
repeated `n` times starting from `chunk`.  Returns the final value of `chunk`
and the updated heap.  The advance `chunk = chunk->next` re-reads the word just
written. -/
def chainChunks (csz : Nat) : Nat → Nat → (Nat → Nat) → Nat × (Nat → Nat)
  | 0, chunk, mem => (chunk, mem)
  | n + 1, chunk, mem =>
      let mem2 := writeMem mem chunk (chunk + csz)
      chainChunks csz n (mem2 chunk) mem2

/-- `PoolAllocator::_allocate_block()`.  Returns the `Chunk *` result (0 =
`nullptr`) together with the state after the call.  Faithful order of
operations: ceiling check, `malloc`, null check, table write with
post-increment of `m_current_block_index`, chaining loop, final
`chunk->next = nullptr`. -/
def _allocate_block (malloc : Nat → Nat) (s : PoolState) : Nat × PoolState :=
  if s.m_max_blocks ≤ s.m_current_block_index then (0, s)
  else
    let block_begin := mallocResult malloc s
    if block_begin = 0 then (0, s)
    else
      let s2 := { s with
        m_blocks := writeMem s.m_blocks s.m_current_block_index block_begin
        m_current_block_index := s.m_current_block_index + 1 }
      let r := chainChunks s.m_chunk_size (loopBound s.m_chunks_per_block) block_begin s2.mem
      (block_begin, { s2 with mem := writeMem r.2 r.1 0 })

/-- The statement `m_alloc = _allocate_block();` executed by `allocate()` when
the free list is empty (lines 116–123 of the source). -/
def growStep (malloc : Nat → Nat) (s : PoolState) : PoolState :=
  let r := _allocate_block malloc s
  { r.2 with m_alloc := r.1 }

/-- Outcome of one `allocate()` call.  `ok p s` : the call returned the chunk
address `p` leaving state `s`.  `nullDeref s` : the call executed
`m_alloc = m_alloc->next` with `m_alloc == nullptr` — a null-pointer
dereference, i.e. undefined behaviour, not a value returned to the caller. -/
inductive AllocResult where
  | ok (p : Nat) (s : PoolState)
  | nullDeref (s : PoolState)

/-- The pool state carried by an `AllocResult`. -/
def AllocResult.state : AllocResult → PoolState
  | .ok _ s => s
  | .nullDeref s => s

/-- Whether an `AllocResult` is the undefined-behaviour outcome. -/
def AllocResult.isNullDeref : AllocResult → Bool
  | .ok _ _ => false
  | .nullDeref _ => true

/-- Whether an `AllocResult` is a successful return. -/
def AllocResult.isOk : AllocResult → Bool
  | .ok _ _ => true
  | .nullDeref _ => false

/-- The chunk address returned by a successful `AllocResult` (0 otherwise). -/
def AllocResult.addr : AllocResult → Nat
  | .ok p _ => p
  | .nullDeref _ => 0

/-- The state after the conditional growth at the top of `allocate()`
(lines 116–123): `if (m_alloc == nullptr) { m_alloc = _allocate_block(); }`. -/
def afterGrowth (malloc : Nat → Nat) (s : PoolState) : PoolState :=
  if s.m_alloc = 0 then growStep malloc s else s

/-- `PoolAllocator::allocate()`.  If `m_alloc == nullptr`, first runs
`m_alloc = _allocate_block()` (see `afterGrowth`).  Then `free_chunk = m_alloc;
m_alloc = m_alloc->next; return free_chunk;` — the middle statement
dereferences `m_alloc`, which is undefined behaviour when `_allocate_block`
returned `nullptr`. -/
def allocate (malloc : Nat → Nat) (s : PoolState) : AllocResult :=
  if (afterGrowth malloc s).m_alloc = 0 then AllocResult.nullDeref (afterGrowth malloc s)
  else AllocResult.ok (afterGrowth malloc s).m_alloc
    { afterGrowth malloc s with
        m_alloc := (afterGrowth malloc s).mem (afterGrowth malloc s).m_alloc }

/-- `PoolAllocator::deallocate(chunk)`:
`((Chunk *)chunk)->next = m_alloc; m_alloc = (Chunk *)chunk;`. -/
def deallocate (chunk : Nat) (s : PoolState) : PoolState :=
  { s with mem := writeMem s.mem chunk s.m_alloc, m_alloc := chunk }

/-- The loop of the destructor:
`for (usize i = 0; i < m_current_block_index; ++i) std::free(m_blocks[i]);`
returns the list of addresses passed to `std::free`, in execution order. -/
def freeLoop (blocks : Nat → Nat) (i count : Nat) : List Nat :=
  if i < count then blocks i :: freeLoop blocks (i + 1) count else []
termination_by count - i

/-- `PoolAllocator::~PoolAllocator()`: the list of addresses released, in
order — each recorded block, then the block table itself
(`std::free(m_blocks)`). -/
def destructor_frees (s : PoolState) : List Nat :=
  freeLoop s.m_blocks 0 s.m_current_block_index ++ [s.m_blocks_ptr]

/-- One client-visible pool operation. -/
inductive PoolOp where
  | alloc (malloc : Nat → Nat)
  | dealloc (p : Nat)

/-- Run one operation, carrying the state out of either `allocate` outcome. -/
def runOp (op : PoolOp) (s : PoolState) : PoolState :=
  match op with
  | .alloc malloc => (allocate malloc s).state
  | .dealloc p => deallocate p s

/-- Run a sequence of operations left to right. -/
def runOps (ops : List PoolOp) (s : PoolState) : PoolState :=
  ops.foldl (fun s op => runOp op s) s

/-- The chunk start addresses of a block of `n` chunks at base `b`:
`b, b + csz, …, b + (n-1) * csz`. -/
def chunkAddrs (b csz : Nat) : Nat → List Nat
  | 0 => []
  | n + 1 => b :: chunkAddrs (b + csz) csz n

/-- `p` is the start address of a chunk of a block recorded in the block
table of `s`. -/
def isChunkOf (s : PoolState) (p : Nat) : Prop :=
  ∃ k, k < s.m_current_block_index ∧
    ∃ i, i < s.m_chunks_per_block ∧ p = s.m_blocks k + i * s.m_chunk_size

/-- `free` is exactly the chain of free chunks threaded through `mem`
starting at head `a` and ending at the null link. -/
def isFreeChain (mem : Nat → Nat) : Nat → List Nat → Prop
  | a, [] => a = 0
  | a, x :: xs => a = x ∧ isFreeChain mem (mem x) xs

/-- The byte ranges of any two distinct recorded blocks are disjoint. -/
def blockRangesDisj (s : PoolState) : Prop :=
  ∀ j k, j < k → k < s.m_current_block_index →
    s.m_blocks j + s.m_chunks_per_block * s.m_chunk_size ≤ s.m_blocks k ∨
    s.m_blocks k + s.m_chunks_per_block * s.m_chunk_size ≤ s.m_blocks j

/-- Every recorded block has a non-null base address. -/
def blocksPos (s : PoolState) : Prop :=
  ∀ k, k < s.m_current_block_index → 0 < s.m_blocks k

/-- The usage-discipline invariant tying a pool state to the list `out` of
currently outstanding chunk addresses and the list `free` of free chunks in
head-to-tail free-list order. -/
structure PoolInv (s : PoolState) (out free : List Nat) : Prop where
  csz_pos : 0 < s.m_chunk_size
  cpb_pos : 0 < s.m_chunks_per_block
  cpb_lt : s.m_chunks_per_block < USIZE
  out_chunks : ∀ p, p ∈ out → isChunkOf s p
  free_chunks : ∀ p, p ∈ free → isChunkOf s p
  chain : isFreeChain s.mem s.m_alloc free
  free_nodup : free.Nodup
  out_nodup : out.Nodup
  disj : ∀ p, p ∈ out → p ∉ free
  bdisj : blockRangesDisj s
  bpos : blocksPos s

/-- Environment assumption on `std::malloc`: the block it would hand out for
the next growth of `s` does not overlap any block already recorded in the
block table. -/
def freshBlock (malloc : Nat → Nat) (s : PoolState) : Prop :=
  ∀ k, k < s.m_current_block_index →
    mallocResult malloc s + s.m_chunks_per_block * s.m_chunk_size ≤ s.m_blocks k ∨
    s.m_blocks k + s.m_chunks_per_block * s.m_chunk_size ≤ mallocResult malloc s

/-- States (with their outstanding-allocation lists, most recent first)
reachable from a freshly constructed pool by sequences in which every
`allocate` succeeds, `malloc` hands out non-overlapping blocks, and every
`deallocate` targets a currently outstanding allocation (which the step
removes, so no double-deallocation occurs). -/
inductive Reach : PoolState → List Nat → Prop where
  | init (csz cpb mb tbl : Nat) (mem0 : Nat → Nat)
      (hcsz : 0 < csz) (hcpb : 0 < cpb) (hlt : cpb < USIZE) :
      Reach (construct csz cpb mb tbl mem0) []
  | stepAlloc {s : PoolState} {out : List Nat} {malloc : Nat → Nat}
      {p : Nat} {s' : PoolState}
      (hr : Reach s out)
      (hfresh : s.m_alloc = 0 → freshBlock malloc s)
      (hok : allocate malloc s = AllocResult.ok p s') :
      Reach s' (p :: out)
  | stepDealloc {s : PoolState} {out : List Nat} {p : Nat}
      (hr : Reach s out) (hp : p ∈ out) :
      Reach (deallocate p s) (out.erase p)

-- Concrete scenario states used by witnesses and counterexamples.

/-- `malloc` oracle handing out blocks at address 100. -/
def onePoolMalloc : Nat → Nat := fun _ => 100

/-- `PoolAllocator<T>(1, 1)` with `sizeof(T) = 16`: one block of one chunk. -/
def onePool0 : PoolState := construct 16 1 1 1 (fun _ => 0)

/-- `onePool0` after the first `allocate()`. -/
def onePool1 : PoolState := (allocate onePoolMalloc onePool0).state

/-- Initial pool for the no-overlap witness: `PoolAllocator<T>(2, 1)` with
`sizeof(T) = 16`. -/
def w3s0 : PoolState := construct 16 2 1 1 (fun _ => 0)

/-- State after the first `allocate()` on `w3s0`. -/
def w3s1 : PoolState := (allocate onePoolMalloc w3s0).state

/-- State after the second `allocate()` on `w3s0`. -/
def w3s2 : PoolState := (allocate onePoolMalloc w3s1).state

/-- Concrete pool for the growth-postcondition witness. -/
def w4s : PoolState := construct 16 3 2 7 (fun _ => 0)

/-- Concrete pool for the LIFO witness. -/
def w5s : PoolState := construct 16 4 2 7 (fun _ => 0)

/-- Concrete pool whose block ceiling is already reached (`max_blocks = 0`). -/
def w6s : PoolState := construct 16 1 0 1 (fun _ => 0)

/-- Concrete pool constructed with `chunks_per_block = 0`. -/
def w9s : PoolState := construct 16 0 1 50 (fun _ => 0)

/-- Concrete pool for the deallocate-frame witness. -/
def w10s : PoolState := construct 16 4 2 7 (fun _ => 3)

-- ## Helper lemmas about heap writes and the chaining loop

theorem writeMem_same (m : Nat → Nat) (a v : Nat) : writeMem m a v a = v := by
  simp [writeMem]

theorem writeMem_other (m : Nat → Nat) {a x : Nat} (v : Nat) (h : x ≠ a) :
    writeMem m a v x = m x := by
  simp [writeMem, h]

theorem chainChunks_succ (csz n c : Nat) (mem : Nat → Nat) :
    chainChunks csz (n + 1) c mem =
      chainChunks csz n (c + csz) (writeMem mem c (c + csz)) := by
  simp [chainChunks, writeMem]

theorem chainChunks_fst (csz : Nat) :
    ∀ (n c : Nat) (mem : Nat → Nat), (chainChunks csz n c mem).1 = c + n * csz := by
  intro n
  induction n with
  | zero => intro c mem; simp [chainChunks]
  | succ k ih =>
      intro c mem
      rw [chainChunks_succ, ih]
      ring

theorem chainChunks_frame (csz : Nat) :
    ∀ (n c : Nat) (mem : Nat → Nat) (a : Nat),
      (∀ i, i < n → a ≠ c + i * csz) → (chainChunks csz n c mem).2 a = mem a := by
  intro n
  induction n with
  | zero => intro c mem a _; rfl
  | succ k ih =>
      intro c mem a ha
      rw [chainChunks_succ]
      have h1 : ∀ i, i < k → a ≠ (c + csz) + i * csz := by
        intro i hi hca
        exact ha (i + 1) (by omega) (by rw [hca]; ring)
      rw [ih (c + csz) (writeMem mem c (c + csz)) a h1]
      apply writeMem_other
      have h0 := ha 0 (by omega)
      simpa using h0

theorem chainChunks_at (csz : Nat) (hcsz : 0 < csz) :
    ∀ (n c : Nat) (mem : Nat → Nat) (i : Nat), i < n →
      (chainChunks csz n c mem).2 (c + i * csz) = c + (i + 1) * csz := by
  intro n
  induction n with
  | zero => intro c mem i hi; exact absurd hi (Nat.not_lt_zero i)
  | succ k ih =>
      intro c mem i hi
      rw [chainChunks_succ]
      cases i with
      | zero =>
          rw [chainChunks_frame]
          · simpa using writeMem_same mem c (c + csz)
          · intro j hj hc
            have hle : c + csz ≤ (c + csz) + j * csz := Nat.le_add_right _ _
            have hlt : c < (c + csz) + j * csz := by omega
            have : c + 0 * csz = c := by ring
            rw [this] at hc
            exact absurd hc (Nat.ne_of_lt hlt)
      | succ j =>
          have hj : j < k := by omega
          have e1 : c + (j + 1) * csz = (c + csz) + j * csz := by ring
          have e2 : (c + csz) + (j + 1) * csz = c + (j + 1 + 1) * csz := by ring
          rw [e1, ih (c + csz) (writeMem mem c (c + csz)) j hj, e2]

theorem loopBound_eq (cpb : Nat) (h1 : 0 < cpb) (h2 : cpb < USIZE) :
    loopBound cpb = cpb - 1 := by
  unfold loopBound USIZE at *
  have he : cpb + (18446744073709551616 - 1) = (cpb - 1) + 1 * 18446744073709551616 := by
    omega
  rw [he, Nat.add_mul_mod_self_right]
  exact Nat.mod_eq_of_lt (by omega)

theorem loopBound_zero : loopBound 0 = USIZE - 1 := by decide

-- ## The destructor loop

theorem freeLoop_fuel (blocks : Nat → Nat) :
    ∀ (fuel i count : Nat), count - i ≤ fuel →
      freeLoop blocks i count = (List.range' i (count - i)).map blocks := by
  intro fuel
  induction fuel with
  | zero =>
      intro i count h
      rw [freeLoop]
      have : ¬ i < count := by omega
      rw [if_neg this]
      have hz : count - i = 0 := by omega
      rw [hz]
      rfl
  | succ f ih =>
      intro i count h
      rw [freeLoop]
      by_cases hlt : i < count
      · rw [if_pos hlt, ih (i + 1) count (by omega)]
        have hc : count - i = (count - (i + 1)) + 1 := by omega
        rw [hc, List.range'_succ]
        rfl
      · rw [if_neg hlt]
        have hz : count - i = 0 := by omega
        rw [hz]
        rfl

theorem freeLoop_range (blocks : Nat → Nat) (count : Nat) :
    freeLoop blocks 0 count = (List.range count).map blocks := by
  rw [List.range_eq_range']
  have h := freeLoop_fuel blocks count 0 count (by omega)
  simpa using h

-- ## Characterizations of allocate and _allocate_block

theorem _allocate_block_ceiling (malloc : Nat → Nat) (s : PoolState)
    (h : s.m_max_blocks ≤ s.m_current_block_index) :
    _allocate_block malloc s = (0, s) := by
  unfold _allocate_block
  rw [if_pos h]

theorem _allocate_block_oom (malloc : Nat → Nat) (s : PoolState)
    (h : ¬ s.m_max_blocks ≤ s.m_current_block_index)
    (hm : mallocResult malloc s = 0) :
    _allocate_block malloc s = (0, s) := by
  unfold _allocate_block
  rw [if_neg h]
  dsimp only
  rw [if_pos hm]

theorem _allocate_block_success (malloc : Nat → Nat) (s : PoolState)
    (hcap : s.m_current_block_index < s.m_max_blocks)
    (hm : mallocResult malloc s ≠ 0) :
    _allocate_block malloc s =
      (mallocResult malloc s,
       { s with
           m_blocks := writeMem s.m_blocks s.m_current_block_index (mallocResult malloc s)
           m_current_block_index := s.m_current_block_index + 1
           mem := writeMem
             (chainChunks s.m_chunk_size (loopBound s.m_chunks_per_block)
                (mallocResult malloc s) s.mem).2
             (chainChunks s.m_chunk_size (loopBound s.m_chunks_per_block)
                (mallocResult malloc s) s.mem).1 0 }) := by
  unfold _allocate_block
  rw [if_neg (by omega)]
  dsimp only
  rw [if_neg hm]

theorem allocate_of_head_ne (malloc : Nat → Nat) (s : PoolState)
    (h : s.m_alloc ≠ 0) :
    allocate malloc s =
      AllocResult.ok s.m_alloc { s with m_alloc := s.mem s.m_alloc } := by
  unfold allocate afterGrowth
  rw [if_neg h, if_neg h]

theorem allocate_grow_fail (malloc : Nat → Nat) (s : PoolState)
    (h : s.m_alloc = 0) (hg : (growStep malloc s).m_alloc = 0) :
    allocate malloc s = AllocResult.nullDeref (growStep malloc s) := by
  unfold allocate afterGrowth
  rw [if_pos h, if_pos hg]

theorem allocate_grow_ok (malloc : Nat → Nat) (s : PoolState)
    (h : s.m_alloc = 0) (hg : (growStep malloc s).m_alloc ≠ 0) :
    allocate malloc s =
      AllocResult.ok (growStep malloc s).m_alloc
        { growStep malloc s with
            m_alloc := (growStep malloc s).mem (growStep malloc s).m_alloc } := by
  unfold allocate afterGrowth
  rw [if_pos h, if_neg hg]

-- ## Field-frame lemmas (capacity fields are never written after construction)

theorem _allocate_block_fields (malloc : Nat → Nat) (s : PoolState) :
    ((_allocate_block malloc s).2).m_chunk_size = s.m_chunk_size ∧
    ((_allocate_block malloc s).2).m_max_blocks = s.m_max_blocks ∧
    ((_allocate_block malloc s).2).m_chunks_per_block = s.m_chunks_per_block := by
  unfold _allocate_block
  by_cases h1 : s.m_max_blocks ≤ s.m_current_block_index
  · rw [if_pos h1]
    exact ⟨rfl, rfl, rfl⟩
  · rw [if_neg h1]
    dsimp only
    by_cases h2 : mallocResult malloc s = 0
    · rw [if_pos h2]
      exact ⟨rfl, rfl, rfl⟩
    · rw [if_neg h2]
      exact ⟨rfl, rfl, rfl⟩

theorem growStep_fields (malloc : Nat → Nat) (s : PoolState) :
    (growStep malloc s).m_chunk_size = s.m_chunk_size ∧
    (growStep malloc s).m_max_blocks = s.m_max_blocks ∧
    (growStep malloc s).m_chunks_per_block = s.m_chunks_per_block := by
  unfold growStep
  exact _allocate_block_fields malloc s

theorem allocate_state_fields (malloc : Nat → Nat) (s : PoolState) :
    ((allocate malloc s).state).m_chunk_size = s.m_chunk_size ∧
    ((allocate malloc s).state).m_max_blocks = s.m_max_blocks ∧
    ((allocate malloc s).state).m_chunks_per_block = s.m_chunks_per_block := by
  by_cases h : s.m_alloc = 0
  · by_cases h2 : (growStep malloc s).m_alloc = 0
    · rw [allocate_grow_fail malloc s h h2]
      exact growStep_fields malloc s
    · rw [allocate_grow_ok malloc s h h2]
      exact growStep_fields malloc s
  · rw [allocate_of_head_ne malloc s h]
    exact ⟨rfl, rfl, rfl⟩

theorem runOp_fields (op : PoolOp) (s : PoolState) :
    (runOp op s).m_chunk_size = s.m_chunk_size ∧
    (runOp op s).m_max_blocks = s.m_max_blocks ∧
    (runOp op s).m_chunks_per_block = s.m_chunks_per_block := by
  cases op with
  | dealloc p => exact ⟨rfl, rfl, rfl⟩
  | alloc malloc => exact allocate_state_fields malloc s

theorem runOps_cons (op : PoolOp) (ops : List PoolOp) (s : PoolState) :
    runOps (op :: ops) s = runOps ops (runOp op s) := rfl

-- ## Chunk-address arithmetic helpers

theorem chunk_step_le {csz : Nat} {i j : Nat} (h : i < j) (b : Nat) :
    b + i * csz + csz ≤ b + j * csz := by
  have h1 : i + 1 ≤ j := h
  have h2 : (i + 1) * csz ≤ j * csz := Nat.mul_le_mul_right csz h1
  have h3 : (i + 1) * csz = i * csz + csz := by ring
  calc b + i * csz + csz = b + (i + 1) * csz := by rw [h3]; ring
    _ ≤ b + j * csz := Nat.add_le_add_left h2 b

theorem chunk_addr_lt {csz : Nat} (hcsz : 0 < csz) {i j : Nat} (h : i < j) (b : Nat) :
    b + i * csz < b + j * csz :=
  Nat.lt_of_lt_of_le (Nat.lt_add_of_pos_right hcsz) (chunk_step_le h b)

theorem chunk_lt_block_end {csz cpb : Nat} (hcsz : 0 < csz) {i : Nat} (hi : i < cpb)
    (b : Nat) : b + i * csz < b + cpb * csz :=
  chunk_addr_lt hcsz hi b

theorem chunk_ne_across {csz cpb b1 b2 : Nat} (hcsz : 0 < csz)
    (hd : b1 + cpb * csz ≤ b2 ∨ b2 + cpb * csz ≤ b1)
    {i j : Nat} (hi : i < cpb) (hj : j < cpb) : b1 + i * csz ≠ b2 + j * csz := by
  rcases hd with h | h
  · have h1 : b1 + i * csz < b2 + j * csz :=
      Nat.lt_of_lt_of_le (Nat.lt_of_lt_of_le (chunk_lt_block_end hcsz hi b1) h)
        (Nat.le_add_right _ _)
    exact Nat.ne_of_lt h1
  · have h1 : b2 + j * csz < b1 + i * csz :=
      Nat.lt_of_lt_of_le (Nat.lt_of_lt_of_le (chunk_lt_block_end hcsz hj b2) h)
        (Nat.le_add_right _ _)
    exact Nat.ne_of_gt h1

-- ## Claim theorems (first batch)

/-- C2 counterexample: the constructor does not fail on invalid arguments.
Constructing with `chunks_per_block = 0`, `max_blocks = 0` and a failed
block-table allocation (`calloc` returned null) produces an ordinary pool
object — the zero capacities and the null table pointer are stored as-is and
`block_count` starts at 0; there is no validation and no construction-error
path in the code at all. -/
theorem C2_counterexample :
    (construct 16 0 0 0 (fun _ => 0)).m_chunks_per_block = 0 ∧
    (construct 16 0 0 0 (fun _ => 0)).m_max_blocks = 0 ∧
    (construct 16 0 0 0 (fun _ => 0)).m_blocks_ptr = 0 ∧
    (construct 16 0 0 0 (fun _ => 0)).m_current_block_index = 0 ∧
    (construct 16 0 0 0 (fun _ => 0)).m_alloc = 0 :=
  ⟨rfl, rfl, rfl, rfl, rfl⟩

/-- C2 (amended): construction never fails and validates nothing.  For every
`sizeof(T)`, both capacity arguments (zero included) and every `calloc`
outcome (null included), the constructor stores the arguments and the table
address unchanged, zero-initializes the logical block table, sets
`block_count = 0` and the free-list head empty, and leaves the heap
untouched. -/
theorem C2_construct_unvalidated (csz cpb mb tbl : Nat) (mem0 : Nat → Nat) :
    (construct csz cpb mb tbl mem0).m_chunk_size = csz ∧
    (construct csz cpb mb tbl mem0).m_chunks_per_block = cpb ∧
    (construct csz cpb mb tbl mem0).m_max_blocks = mb ∧
    (construct csz cpb mb tbl mem0).m_blocks_ptr = tbl ∧
    (construct csz cpb mb tbl mem0).m_current_block_index = 0 ∧
    (construct csz cpb mb tbl mem0).m_alloc = 0 ∧
    (∀ i, (construct csz cpb mb tbl mem0).m_blocks i = 0) ∧
    (∀ a, (construct csz cpb mb tbl mem0).mem a = mem0 a) :=
  ⟨rfl, rfl, rfl, rfl, rfl, rfl, fun _ => rfl, fun _ => rfl⟩

/-- C5: LIFO round-trip.  Deallocating a chunk `p` (any non-null address, in
particular any address previously returned by `allocate()` and still
outstanding) and then calling `allocate()` with no intervening deallocation
returns exactly `p`, and restores the free-list head that was current before
the `deallocate`. -/
theorem C5_lifo_roundtrip (malloc : Nat → Nat) (s : PoolState) (p : Nat)
    (hp : p ≠ 0) :
    allocate malloc (deallocate p s) =
      AllocResult.ok p { deallocate p s with m_alloc := s.m_alloc } := by
  have hp' : (deallocate p s).m_alloc ≠ 0 := hp
  rw [allocate_of_head_ne malloc (deallocate p s) hp']
  simp [deallocate, writeMem]

/-- C5 witness at a concrete input. -/
theorem C5_lifo_roundtrip_witness :
    allocate onePoolMalloc (deallocate 44 w5s) =
      AllocResult.ok 44 { deallocate 44 w5s with m_alloc := w5s.m_alloc } :=
  C5_lifo_roundtrip onePoolMalloc w5s 44 (by decide)

/-- C6: a failed growth attempt (block ceiling reached, or `malloc` refused
the request) leaves the pool state — `block_count`, the free-list head, the
block table and all heap words — exactly as it was: the `m_alloc =
_allocate_block()` assignment rewrites the already-null head with null. -/
theorem C6_failed_growth_preserves_state (malloc : Nat → Nat) (s : PoolState)
    (hempty : s.m_alloc = 0)
    (hfail : s.m_max_blocks ≤ s.m_current_block_index ∨ mallocResult malloc s = 0) :
    growStep malloc s = s ∧
    (growStep malloc s).m_current_block_index = s.m_current_block_index ∧
    (growStep malloc s).m_alloc = s.m_alloc := by
  have hb : _allocate_block malloc s = (0, s) := by
    by_cases hc : s.m_max_blocks ≤ s.m_current_block_index
    · exact _allocate_block_ceiling malloc s hc
    · rcases hfail with h | h
      · exact absurd h hc
      · exact _allocate_block_oom malloc s hc h
  have hg : growStep malloc s = s := by
    unfold growStep
    rw [hb]
    obtain ⟨f1, f2, f3, f4, f5, f6, f7, f8⟩ := s
    simp only at hempty
    dsimp only
    rw [← hempty]
  exact ⟨hg, by rw [hg], by rw [hg]⟩

/-- C6 witness at a concrete input (`max_blocks = 0`, so growth must fail). -/
theorem C6_failed_growth_preserves_state_witness :
    growStep onePoolMalloc w6s = w6s ∧
    (growStep onePoolMalloc w6s).m_current_block_index = w6s.m_current_block_index ∧
    (growStep onePoolMalloc w6s).m_alloc = w6s.m_alloc :=
  C6_failed_growth_preserves_state onePoolMalloc w6s rfl (Or.inl (by decide))

/-- C7: teardown releases exactly the recorded blocks
`block_table[0 .. block_count-1]`, in ascending index order, followed by the
block table itself — `block_count + 1` releases in total — and the list of
released addresses is unaffected by the free list (a `deallocate`, which only
rewrites the free list and one chunk word, never changes it). -/
theorem C7_teardown_releases_exactly (s : PoolState) :
    destructor_frees s =
      (List.range s.m_current_block_index).map s.m_blocks ++ [s.m_blocks_ptr] ∧
    (destructor_frees s).length = s.m_current_block_index + 1 ∧
    ∀ p, destructor_frees (deallocate p s) = destructor_frees s := by
  refine ⟨?_, ?_, fun p => rfl⟩
  · unfold destructor_frees
    rw [freeLoop_range]
  · unfold destructor_frees
    rw [freeLoop_range]
    simp

/-- C8: the accessors `chunk_size()`, `max_blocks()` and `chunks_per_block()`
read fields that no `allocate`/`deallocate` sequence ever writes, so their
values after any operation sequence equal their values before it. -/
theorem C8_accessors_stable (ops : List PoolOp) (s : PoolState) :
    (runOps ops s).m_chunk_size = s.m_chunk_size ∧
    (runOps ops s).m_max_blocks = s.m_max_blocks ∧
    (runOps ops s).m_chunks_per_block = s.m_chunks_per_block := by
  induction ops generalizing s with
  | nil => exact ⟨rfl, rfl, rfl⟩
  | cons op rest ih =>
      rw [runOps_cons]
      have h1 := runOp_fields op s
      have h2 := ih (runOp op s)
      exact ⟨h2.1.trans h1.1, h2.2.1.trans h1.2.1, h2.2.2.trans h1.2.2⟩

/-- C10: `deallocate(p)` writes exactly the free-list head and the leading
word at `p`: `block_count`, every block-table entry, the table address, all
capacity fields, and every heap word at an address other than `p` are
unchanged, while the head becomes `p` and the word at `p` receives the old
head. -/
theorem C10_deallocate_frame (s : PoolState) (p a : Nat) (ha : a ≠ p) :
    (deallocate p s).m_current_block_index = s.m_current_block_index ∧
    (∀ i, (deallocate p s).m_blocks i = s.m_blocks i) ∧
    (deallocate p s).m_blocks_ptr = s.m_blocks_ptr ∧
    (deallocate p s).m_chunk_size = s.m_chunk_size ∧
    (deallocate p s).m_chunks_per_block = s.m_chunks_per_block ∧
    (deallocate p s).m_max_blocks = s.m_max_blocks ∧
    (deallocate p s).mem a = s.mem a ∧
    (deallocate p s).m_alloc = p ∧
    (deallocate p s).mem p = s.m_alloc := by
  refine ⟨rfl, fun _ => rfl, rfl, rfl, rfl, rfl, ?_, rfl, ?_⟩
  · exact writeMem_other s.mem s.m_alloc ha
  · exact writeMem_same s.mem p s.m_alloc

/-- C10 witness at a concrete input. -/
theorem C10_deallocate_frame_witness :
    (deallocate 5 w10s).m_current_block_index = w10s.m_current_block_index ∧
    (∀ i, (deallocate 5 w10s).m_blocks i = w10s.m_blocks i) ∧
    (deallocate 5 w10s).m_blocks_ptr = w10s.m_blocks_ptr ∧
    (deallocate 5 w10s).m_chunk_size = w10s.m_chunk_size ∧
    (deallocate 5 w10s).m_chunks_per_block = w10s.m_chunks_per_block ∧
    (deallocate 5 w10s).m_max_blocks = w10s.m_max_blocks ∧
    (deallocate 5 w10s).mem 9 = w10s.mem 9 ∧
    (deallocate 5 w10s).m_alloc = 5 ∧
    (deallocate 5 w10s).mem 5 = w10s.m_alloc :=
  C10_deallocate_frame w10s 5 9 (by decide)

/-- C1: on `PoolAllocator<T>(1, 1)` the first `allocate()` succeeds (returning
the single chunk of the single block), and the second `allocate()` with no
intervening `deallocate()` does NOT return a failure sentinel: `_allocate_block`
returns `nullptr` (ceiling reached), `m_alloc` is assigned `nullptr`, and the
unconditional `m_alloc = m_alloc->next` then dereferences the null pointer —
undefined behaviour instead of the sentinel return the claim (and the code's
own comments) describe. -/
theorem C1_capacity_exhaustion_is_null_deref :
    (allocate onePoolMalloc onePool0).isOk = true ∧
    (allocate onePoolMalloc onePool0).addr = 100 ∧
    (allocate onePoolMalloc onePool1).isNullDeref = true :=
  ⟨rfl, rfl, rfl⟩

/-- C4: when `block_count < max_blocks` and `malloc` succeeds, the growth
records the block base at `block_table[block_count]`, increments
`block_count`, links chunk `i` to chunk `i + 1` for every
`i ∈ [0, chunks_per_block - 2]`, null-terminates the last chunk's link, and
sets the free-list head to the block's first chunk. -/
theorem C4_growth_success_postconditions (malloc : Nat → Nat) (s : PoolState)
    (hcsz : 0 < s.m_chunk_size) (hcpb : 0 < s.m_chunks_per_block)
    (hltW : s.m_chunks_per_block < USIZE)
    (hcap : s.m_current_block_index < s.m_max_blocks)
    (hm : mallocResult malloc s ≠ 0) :
    (growStep malloc s).m_blocks s.m_current_block_index = mallocResult malloc s ∧
    (growStep malloc s).m_current_block_index = s.m_current_block_index + 1 ∧
    (∀ i, i + 1 < s.m_chunks_per_block →
      (growStep malloc s).mem (mallocResult malloc s + i * s.m_chunk_size) =
        mallocResult malloc s + (i + 1) * s.m_chunk_size) ∧
    (growStep malloc s).mem
        (mallocResult malloc s + (s.m_chunks_per_block - 1) * s.m_chunk_size) = 0 ∧
    (growStep malloc s).m_alloc = mallocResult malloc s := by
  have hs := _allocate_block_success malloc s hcap hm
  have hn := loopBound_eq s.m_chunks_per_block hcpb hltW
  unfold growStep
  rw [hs]
  dsimp only
  rw [hn]
  have hfst : (chainChunks s.m_chunk_size (s.m_chunks_per_block - 1)
      (mallocResult malloc s) s.mem).1 =
      mallocResult malloc s + (s.m_chunks_per_block - 1) * s.m_chunk_size :=
    chainChunks_fst _ _ _ _
  refine ⟨writeMem_same _ _ _, rfl, ?_, ?_, rfl⟩
  · intro i hi
    rw [hfst, writeMem_other]
    · exact chainChunks_at s.m_chunk_size hcsz (s.m_chunks_per_block - 1) _ s.mem i
        (by omega)
    · exact Nat.ne_of_lt (chunk_addr_lt hcsz (by omega) (mallocResult malloc s))
  · rw [hfst, writeMem_same]

/-- C4 witness at a concrete input (`chunks_per_block = 3`). -/
theorem C4_growth_success_postconditions_witness :
    (growStep onePoolMalloc w4s).m_blocks w4s.m_current_block_index =
      mallocResult onePoolMalloc w4s ∧
    (growStep onePoolMalloc w4s).m_current_block_index =
      w4s.m_current_block_index + 1 ∧
    (∀ i, i + 1 < w4s.m_chunks_per_block →
      (growStep onePoolMalloc w4s).mem
          (mallocResult onePoolMalloc w4s + i * w4s.m_chunk_size) =
        mallocResult onePoolMalloc w4s + (i + 1) * w4s.m_chunk_size) ∧
    (growStep onePoolMalloc w4s).mem
        (mallocResult onePoolMalloc w4s +
          (w4s.m_chunks_per_block - 1) * w4s.m_chunk_size) = 0 ∧
    (growStep onePoolMalloc w4s).m_alloc = mallocResult onePoolMalloc w4s :=
  C4_growth_success_postconditions onePoolMalloc w4s (by decide) (by decide)
    (by decide) (by decide) (by decide)

/-- C9: with `chunks_per_block = 0` the chaining loop bound
`m_chunks_per_block - 1`, computed in `usize` arithmetic, wraps to
`2 ^ 64 - 1`; neither the constructor nor `_allocate_block` guards against a
zero chunk count (the constructor stores the 0, and growth proceeds and
increments `block_count`), the requested block is `0 * sizeof(T) = 0` bytes,
yet the loop writes a free-link at the block base itself — an address outside
the empty byte range `[base, base + 0)` of the allocated block. -/
theorem C9_zero_chunks_per_block_overruns (malloc : Nat → Nat) (s : PoolState)
    (hz : s.m_chunks_per_block = 0) (hcsz : 0 < s.m_chunk_size)
    (hcap : s.m_current_block_index < s.m_max_blocks)
    (hm : mallocResult malloc s ≠ 0) :
    loopBound s.m_chunks_per_block = USIZE - 1 ∧
    blockSize s.m_chunks_per_block s.m_chunk_size = 0 ∧
    (growStep malloc s).m_current_block_index = s.m_current_block_index + 1 ∧
    (growStep malloc s).mem (mallocResult malloc s) =
      mallocResult malloc s + s.m_chunk_size ∧
    ¬ mallocResult malloc s <
        mallocResult malloc s + blockSize s.m_chunks_per_block s.m_chunk_size ∧
    (construct s.m_chunk_size 0 s.m_max_blocks s.m_blocks_ptr s.mem).m_chunks_per_block
      = 0 := by
  have hs := _allocate_block_success malloc s hcap hm
  have hbs : blockSize s.m_chunks_per_block s.m_chunk_size = 0 := by
    rw [hz]
    simp [blockSize]
  refine ⟨by rw [hz]; exact loopBound_zero, hbs, ?_, ?_, ?_, rfl⟩
  · unfold growStep
    rw [hs]
  · unfold growStep
    rw [hs]
    dsimp only
    rw [hz, loopBound_zero]
    have hfst : (chainChunks s.m_chunk_size (USIZE - 1)
        (mallocResult malloc s) s.mem).1 =
        mallocResult malloc s + (USIZE - 1) * s.m_chunk_size :=
      chainChunks_fst _ _ _ _
    rw [hfst, writeMem_other]
    · have h0 := chainChunks_at s.m_chunk_size hcsz (USIZE - 1)
        (mallocResult malloc s) s.mem 0 (by decide)
      have e0 : mallocResult malloc s + 0 * s.m_chunk_size = mallocResult malloc s := by
        ring
      have e1 : mallocResult malloc s + (0 + 1) * s.m_chunk_size =
          mallocResult malloc s + s.m_chunk_size := by
        ring
      rw [e0, e1] at h0
      exact h0
    · have hlt := chunk_addr_lt hcsz (show 0 < USIZE - 1 by decide)
        (mallocResult malloc s)
      simp only [Nat.zero_mul, Nat.add_zero] at hlt
      exact Nat.ne_of_lt hlt
  · rw [hbs]
    simp

/-- C9 witness at a concrete input (`chunks_per_block = 0`). -/
theorem C9_zero_chunks_per_block_overruns_witness :
    loopBound w9s.m_chunks_per_block = USIZE - 1 ∧
    blockSize w9s.m_chunks_per_block w9s.m_chunk_size = 0 ∧
    (growStep onePoolMalloc w9s).m_current_block_index =
      w9s.m_current_block_index + 1 ∧
    (growStep onePoolMalloc w9s).mem (mallocResult onePoolMalloc w9s) =
      mallocResult onePoolMalloc w9s + w9s.m_chunk_size ∧
    ¬ mallocResult onePoolMalloc w9s <
        mallocResult onePoolMalloc w9s +
          blockSize w9s.m_chunks_per_block w9s.m_chunk_size ∧
    (construct w9s.m_chunk_size 0 w9s.m_max_blocks w9s.m_blocks_ptr
        w9s.mem).m_chunks_per_block = 0 :=
  C9_zero_chunks_per_block_overruns onePoolMalloc w9s rfl (by decide) (by decide)
    (by decide)

-- ## Lemmas about chunk-address lists and free chains

theorem mem_chunkAddrs {csz : Nat} :
    ∀ {n b p : Nat}, p ∈ chunkAddrs b csz n ↔ ∃ i, i < n ∧ p = b + i * csz := by
  intro n
  induction n with
  | zero =>
      intro b p
      simp [chunkAddrs]
  | succ k ih =>
      intro b p
      simp only [chunkAddrs, List.mem_cons]
      constructor
      · rintro (rfl | hp)
        · exact ⟨0, by omega, by ring⟩
        · obtain ⟨i, hi, rfl⟩ := ih.mp hp
          exact ⟨i + 1, by omega, by ring⟩
      · rintro ⟨i, hi, rfl⟩
        cases i with
        | zero => left; ring
        | succ j => right; exact ih.mpr ⟨j, by omega, by ring⟩

theorem chunkAddrs_nodup {csz : Nat} (hcsz : 0 < csz) :
    ∀ (n b : Nat), (chunkAddrs b csz n).Nodup := by
  intro n
  induction n with
  | zero => intro b; exact List.nodup_nil
  | succ k ih =>
      intro b
      refine List.nodup_cons.mpr ⟨?_, ih (b + csz)⟩
      intro hb
      obtain ⟨i, hi, he⟩ := mem_chunkAddrs.mp hb
      have hlt : b < (b + csz) + i * csz :=
        Nat.lt_of_lt_of_le (Nat.lt_add_of_pos_right hcsz) (Nat.le_add_right _ _)
      exact absurd he (Nat.ne_of_lt hlt)

theorem isFreeChain_writeMem {mem : Nat → Nat} {p v : Nat} :
    ∀ {a : Nat} {free : List Nat}, isFreeChain mem a free →
      (∀ x, x ∈ free → x ≠ p) → isFreeChain (writeMem mem p v) a free := by
  intro a free
  induction free generalizing a with
  | nil => intro h _; exact h
  | cons x xs ih =>
      intro h hnot
      have hc : a = x ∧ isFreeChain mem (mem x) xs := h
      have hxp : x ≠ p := hnot x (List.mem_cons_self x xs)
      show a = x ∧ isFreeChain (writeMem mem p v) (writeMem mem p v x) xs
      refine ⟨hc.1, ?_⟩
      rw [writeMem_other mem v hxp]
      exact ih hc.2 (fun y hy => hnot y (List.mem_cons_of_mem x hy))

theorem isFreeChain_chunkAddrs (mem : Nat → Nat) (csz : Nat) :
    ∀ (n b : Nat),
      (∀ i, i + 1 < n + 1 → mem (b + i * csz) = b + (i + 1) * csz) →
      mem (b + n * csz) = 0 →
      isFreeChain mem b (chunkAddrs b csz (n + 1)) := by
  intro n
  induction n with
  | zero =>
      intro b _ hlast
      show b = b ∧ isFreeChain mem (mem b) []
      refine ⟨rfl, ?_⟩
      show mem b = 0
      have he : b + 0 * csz = b := by ring
      rw [he] at hlast
      exact hlast
  | succ k ih =>
      intro b hlink hlast
      show b = b ∧ isFreeChain mem (mem b) (chunkAddrs (b + csz) csz (k + 1))
      refine ⟨rfl, ?_⟩
      have h0 := hlink 0 (by omega)
      have e0 : b + 0 * csz = b := by ring
      have e1 : b + (0 + 1) * csz = b + csz := by ring
      rw [e0, e1] at h0
      rw [h0]
      apply ih (b + csz)
      · intro i hi
        have h1 := hlink (i + 1) (by omega)
        have e2 : b + (i + 1) * csz = (b + csz) + i * csz := by ring
        have e3 : b + (i + 1 + 1) * csz = (b + csz) + (i + 1) * csz := by ring
        rw [e2, e3] at h1
        exact h1
      · have e4 : b + (k + 1) * csz = (b + csz) + k * csz := by ring
        rw [e4] at hlast
        exact hlast

-- ## Shared growth-success postcondition lemma

theorem growStep_success_spec (malloc : Nat → Nat) (s : PoolState)
    (hcsz : 0 < s.m_chunk_size) (hcpb : 0 < s.m_chunks_per_block)
    (hltW : s.m_chunks_per_block < USIZE)
    (hcap : s.m_current_block_index < s.m_max_blocks)
    (hm : mallocResult malloc s ≠ 0) :
    (growStep malloc s).m_blocks s.m_current_block_index = mallocResult malloc s ∧
    (growStep malloc s).m_current_block_index = s.m_current_block_index + 1 ∧
    (∀ i, i + 1 < s.m_chunks_per_block →
      (growStep malloc s).mem (mallocResult malloc s + i * s.m_chunk_size) =
        mallocResult malloc s + (i + 1) * s.m_chunk_size) ∧
    (growStep malloc s).mem
        (mallocResult malloc s + (s.m_chunks_per_block - 1) * s.m_chunk_size) = 0 ∧
    (growStep malloc s).m_alloc = mallocResult malloc s ∧
    (∀ k, k ≠ s.m_current_block_index →
      (growStep malloc s).m_blocks k = s.m_blocks k) ∧
    (growStep malloc s).m_chunk_size = s.m_chunk_size ∧
    (growStep malloc s).m_chunks_per_block = s.m_chunks_per_block ∧
    (growStep malloc s).m_max_blocks = s.m_max_blocks := by
  have hs := _allocate_block_success malloc s hcap hm
  have hn := loopBound_eq s.m_chunks_per_block hcpb hltW
  unfold growStep
  rw [hs]
  dsimp only
  rw [hn]
  have hfst : (chainChunks s.m_chunk_size (s.m_chunks_per_block - 1)
      (mallocResult malloc s) s.mem).1 =
      mallocResult malloc s + (s.m_chunks_per_block - 1) * s.m_chunk_size :=
    chainChunks_fst _ _ _ _
  refine ⟨writeMem_same _ _ _, rfl, ?_, ?_, rfl, ?_, rfl, rfl, rfl⟩
  · intro i hi
    rw [hfst, writeMem_other]
    · exact chainChunks_at s.m_chunk_size hcsz (s.m_chunks_per_block - 1) _ s.mem i
        (by omega)
    · exact Nat.ne_of_lt (chunk_addr_lt hcsz (by omega) (mallocResult malloc s))
  · rw [hfst, writeMem_same]
  · intro k hk
    exact writeMem_other s.m_blocks (mallocResult malloc s) hk

-- ## Invariant machinery for the no-overlap property

theorem isChunkOf_pos {s : PoolState} {p : Nat} (hbp : blocksPos s)
    (h : isChunkOf s p) : 0 < p := by
  obtain ⟨k, hk, i, hi, rfl⟩ := h
  exact Nat.lt_of_lt_of_le (hbp k hk) (Nat.le_add_right _ _)

theorem free_nil_of_head_zero {s : PoolState} {out free : List Nat}
    (h : PoolInv s out free) (h0 : s.m_alloc = 0) : free = [] := by
  cases free with
  | nil => rfl
  | cons x xs =>
      have hc : s.m_alloc = x ∧ isFreeChain s.mem (s.mem x) xs := h.chain
      have hpos : 0 < x :=
        isChunkOf_pos h.bpos (h.free_chunks x (List.mem_cons_self x xs))
      omega

theorem poolInv_init (csz cpb mb tbl : Nat) (mem0 : Nat → Nat)
    (hcsz : 0 < csz) (hcpb : 0 < cpb) (hlt : cpb < USIZE) :
    PoolInv (construct csz cpb mb tbl mem0) [] [] := by
  refine ⟨hcsz, hcpb, hlt, ?_, ?_, rfl, List.nodup_nil, List.nodup_nil, ?_, ?_, ?_⟩
  · intro p hp; cases hp
  · intro p hp; cases hp
  · intro p hp; cases hp
  · intro j k _ hk
    exact absurd hk (Nat.not_lt_zero k)
  · intro k hk
    exact absurd hk (Nat.not_lt_zero k)

theorem poolInv_dealloc {s : PoolState} {out free : List Nat} {p : Nat}
    (h : PoolInv s out free) (hp : p ∈ out) :
    PoolInv (deallocate p s) (out.erase p) (p :: free) := by
  have hpfree : p ∉ free := h.disj p hp
  have hpchunk : isChunkOf s p := h.out_chunks p hp
  refine ⟨h.csz_pos, h.cpb_pos, h.cpb_lt, ?_, ?_, ?_, ?_, h.out_nodup.erase p, ?_,
    h.bdisj, h.bpos⟩
  · intro q hq
    exact h.out_chunks q (List.mem_of_mem_erase hq)
  · intro q hq
    rcases List.mem_cons.mp hq with rfl | hq2
    · exact hpchunk
    · exact h.free_chunks q hq2
  · show p = p ∧ isFreeChain (deallocate p s).mem ((deallocate p s).mem p) free
    refine ⟨rfl, ?_⟩
    show isFreeChain (writeMem s.mem p s.m_alloc) (writeMem s.mem p s.m_alloc p) free
    rw [writeMem_same]
    exact isFreeChain_writeMem h.chain (fun x hx hxp => hpfree (hxp ▸ hx))
  · exact List.nodup_cons.mpr ⟨hpfree, h.free_nodup⟩
  · intro q hq
    have hq2 := (List.Nodup.mem_erase_iff h.out_nodup).mp hq
    intro hqin
    rcases List.mem_cons.mp hqin with rfl | hq3
    · exact hq2.1 rfl
    · exact h.disj q hq2.2 hq3

theorem poolInv_pop {t : PoolState} {out : List Nat} {x : Nat} {xs : List Nat}
    (h : PoolInv t out (x :: xs)) :
    t.m_alloc = x ∧
    PoolInv { t with m_alloc := t.mem t.m_alloc } (x :: out) xs := by
  have hc : t.m_alloc = x ∧ isFreeChain t.mem (t.mem x) xs := h.chain
  refine ⟨hc.1, ?_⟩
  have hxfree : x ∈ x :: xs := List.mem_cons_self x xs
  have hxout : x ∉ out := fun hin => h.disj x hin hxfree
  have hnodup := List.nodup_cons.mp h.free_nodup
  refine ⟨h.csz_pos, h.cpb_pos, h.cpb_lt, ?_, ?_, ?_, hnodup.2, ?_, ?_, h.bdisj,
    h.bpos⟩
  · intro q hq
    rcases List.mem_cons.mp hq with rfl | hq2
    · exact h.free_chunks q hxfree
    · exact h.out_chunks q hq2
  · intro q hq
    exact h.free_chunks q (List.mem_cons_of_mem x hq)
  · show isFreeChain t.mem (t.mem t.m_alloc) xs
    rw [hc.1]
    exact hc.2
  · exact List.nodup_cons.mpr ⟨hxout, h.out_nodup⟩
  · intro q hq
    rcases List.mem_cons.mp hq with rfl | hq2
    · exact hnodup.1
    · intro hqxs
      exact h.disj q hq2 (List.mem_cons_of_mem x hqxs)

theorem poolInv_grow {s : PoolState} {out : List Nat} {malloc : Nat → Nat}
    (h : PoolInv s out [])
    (hfresh : freshBlock malloc s)
    (hcap : s.m_current_block_index < s.m_max_blocks)
    (hm : mallocResult malloc s ≠ 0) :
    PoolInv (growStep malloc s) out
      (chunkAddrs (mallocResult malloc s) s.m_chunk_size s.m_chunks_per_block) := by
  obtain ⟨hb_at, hcur, hlink, hlast, halloc, hbframe, hcszf, hcpbf, hmbf⟩ :=
    growStep_success_spec malloc s h.csz_pos h.cpb_pos h.cpb_lt hcap hm
  have hchainfull : isFreeChain (growStep malloc s).mem (mallocResult malloc s)
      (chunkAddrs (mallocResult malloc s) s.m_chunk_size
        ((s.m_chunks_per_block - 1) + 1)) := by
    apply isFreeChain_chunkAddrs
    · intro i hi
      exact hlink i (by omega)
    · exact hlast
  have hsplit : (s.m_chunks_per_block - 1) + 1 = s.m_chunks_per_block := by
    have := h.cpb_pos
    omega
  rw [hsplit] at hchainfull
  refine ⟨?_, ?_, ?_, ?_, ?_, ?_, ?_, h.out_nodup, ?_, ?_, ?_⟩
  · rw [hcszf]; exact h.csz_pos
  · rw [hcpbf]; exact h.cpb_pos
  · rw [hcpbf]; exact h.cpb_lt
  · -- outstanding chunks still lie in recorded blocks
    intro q hq
    obtain ⟨k, hk, i, hi, he⟩ := h.out_chunks q hq
    refine ⟨k, ?_, i, ?_, ?_⟩
    · rw [hcur]; omega
    · rw [hcpbf]; exact hi
    · rw [hbframe k (by omega), hcszf]; exact he
  · -- the fresh chunks lie in the newly recorded block
    intro q hq
    obtain ⟨i, hi, he⟩ := mem_chunkAddrs.mp hq
    refine ⟨s.m_current_block_index, ?_, i, ?_, ?_⟩
    · rw [hcur]; omega
    · rw [hcpbf]; exact hi
    · rw [hb_at, hcszf]; exact he
  · show isFreeChain (growStep malloc s).mem (growStep malloc s).m_alloc
      (chunkAddrs (mallocResult malloc s) s.m_chunk_size s.m_chunks_per_block)
    rw [halloc]
    exact hchainfull
  · exact chunkAddrs_nodup h.csz_pos s.m_chunks_per_block (mallocResult malloc s)
  · -- outstanding chunks are disjoint from the fresh block's chunks
    intro q hq hqin
    obtain ⟨i, hi, he⟩ := mem_chunkAddrs.mp hqin
    obtain ⟨k, hk, j, hj, he2⟩ := h.out_chunks q hq
    have hd := hfresh k hk
    have hne := chunk_ne_across h.csz_pos hd hi hj
    exact hne (he.symm.trans he2)
  · -- block ranges stay pairwise disjoint
    intro j k hjk hk
    have hk' : k < s.m_current_block_index + 1 := by rw [hcur] at hk; exact hk
    by_cases hkc : k = s.m_current_block_index
    · rw [hkc] at hjk
      rw [hkc, hb_at, hbframe j (by omega), hcpbf, hcszf]
      rcases hfresh j (by omega) with h1 | h1
      · exact Or.inr h1
      · exact Or.inl h1
    · rw [hbframe j (by omega), hbframe k hkc, hcpbf, hcszf]
      exact h.bdisj j k hjk (by omega)
  · -- recorded block bases stay non-null
    intro k hk
    have hk' : k < s.m_current_block_index + 1 := by rw [hcur] at hk; exact hk
    by_cases hkc : k = s.m_current_block_index
    · rw [hkc, hb_at]
      exact Nat.pos_of_ne_zero hm
    · rw [hbframe k hkc]
      exact h.bpos k (by omega)

theorem poolInv_alloc {s : PoolState} {out free : List Nat} {malloc : Nat → Nat}
    {p : Nat} {s' : PoolState}
    (h : PoolInv s out free)
    (hfresh : s.m_alloc = 0 → freshBlock malloc s)
    (hok : allocate malloc s = AllocResult.ok p s') :
    ∃ free', PoolInv s' (p :: out) free' := by
  by_cases h0 : s.m_alloc = 0
  · have hfree : free = [] := free_nil_of_head_zero h h0
    subst hfree
    by_cases hgs : (growStep malloc s).m_alloc = 0
    · rw [allocate_grow_fail malloc s h0 hgs] at hok
      exact AllocResult.noConfusion hok
    · rw [allocate_grow_ok malloc s h0 hgs] at hok
      have hcap : ¬ s.m_max_blocks ≤ s.m_current_block_index := by
        intro hc
        apply hgs
        show (growStep malloc s).m_alloc = 0
        unfold growStep
        rw [_allocate_block_ceiling malloc s hc]
      have hm : mallocResult malloc s ≠ 0 := by
        intro hmz
        apply hgs
        show (growStep malloc s).m_alloc = 0
        unfold growStep
        rw [_allocate_block_oom malloc s hcap hmz]
      have hginv := poolInv_grow h (hfresh h0) (by omega) hm
      have hsplit : chunkAddrs (mallocResult malloc s) s.m_chunk_size
          s.m_chunks_per_block
          = mallocResult malloc s ::
            chunkAddrs (mallocResult malloc s + s.m_chunk_size) s.m_chunk_size
              (s.m_chunks_per_block - 1) := by
        have hc1 : s.m_chunks_per_block = (s.m_chunks_per_block - 1) + 1 := by
          have := h.cpb_pos
          omega
        rw [hc1]
        rfl
      rw [hsplit] at hginv
      obtain ⟨hhead, hpop⟩ := poolInv_pop hginv
      injection hok with hp hs'
      subst hs'
      refine ⟨chunkAddrs (mallocResult malloc s + s.m_chunk_size) s.m_chunk_size
        (s.m_chunks_per_block - 1), ?_⟩
      rw [← hp, hhead]
      rw [hhead] at hpop
      exact hpop
  · cases free with
    | nil =>
        have hz : s.m_alloc = 0 := h.chain
        exact absurd hz h0
    | cons x xs =>
        obtain ⟨hhead, hpop⟩ := poolInv_pop h
        rw [allocate_of_head_ne malloc s h0] at hok
        injection hok with hp hs'
        subst hs'
        refine ⟨xs, ?_⟩
        rw [← hp, hhead]
        rw [hhead] at hpop
        exact hpop

theorem poolInv_no_overlap {s : PoolState} {out free : List Nat}
    (h : PoolInv s out free) {p1 p2 : Nat}
    (h1 : p1 ∈ out) (h2 : p2 ∈ out) (hne : p1 ≠ p2) :
    p1 + s.m_chunk_size ≤ p2 ∨ p2 + s.m_chunk_size ≤ p1 := by
  obtain ⟨k1, hk1, i1, hi1, e1⟩ := h.out_chunks p1 h1
  obtain ⟨k2, hk2, i2, hi2, e2⟩ := h.out_chunks p2 h2
  subst e1
  subst e2
  rcases Nat.lt_trichotomy k1 k2 with hk | hk | hk
  · rcases h.bdisj k1 k2 hk hk2 with hd | hd
    · left
      calc s.m_blocks k1 + i1 * s.m_chunk_size + s.m_chunk_size
          ≤ s.m_blocks k1 + s.m_chunks_per_block * s.m_chunk_size :=
            chunk_step_le hi1 (s.m_blocks k1)
        _ ≤ s.m_blocks k2 := hd
        _ ≤ s.m_blocks k2 + i2 * s.m_chunk_size := Nat.le_add_right _ _
    · right
      calc s.m_blocks k2 + i2 * s.m_chunk_size + s.m_chunk_size
          ≤ s.m_blocks k2 + s.m_chunks_per_block * s.m_chunk_size :=
            chunk_step_le hi2 (s.m_blocks k2)
        _ ≤ s.m_blocks k1 := hd
        _ ≤ s.m_blocks k1 + i1 * s.m_chunk_size := Nat.le_add_right _ _
  · rw [hk] at hne ⊢
    have hii : i1 ≠ i2 := by
      intro he
      apply hne
      rw [he]
    rcases Nat.lt_or_ge i1 i2 with hi | hi
    · left
      exact chunk_step_le hi (s.m_blocks k2)
    · have hi' : i2 < i1 := by omega
      right
      exact chunk_step_le hi' (s.m_blocks k2)
  · rcases h.bdisj k2 k1 hk hk1 with hd | hd
    · right
      calc s.m_blocks k2 + i2 * s.m_chunk_size + s.m_chunk_size
          ≤ s.m_blocks k2 + s.m_chunks_per_block * s.m_chunk_size :=
            chunk_step_le hi2 (s.m_blocks k2)
        _ ≤ s.m_blocks k1 := hd
        _ ≤ s.m_blocks k1 + i1 * s.m_chunk_size := Nat.le_add_right _ _
    · left
      calc s.m_blocks k1 + i1 * s.m_chunk_size + s.m_chunk_size
          ≤ s.m_blocks k1 + s.m_chunks_per_block * s.m_chunk_size :=
            chunk_step_le hi1 (s.m_blocks k1)
        _ ≤ s.m_blocks k2 := hd
        _ ≤ s.m_blocks k2 + i2 * s.m_chunk_size := Nat.le_add_right _ _

theorem reach_poolInv {s : PoolState} {out : List Nat} (h : Reach s out) :
    ∃ free, PoolInv s out free := by
  induction h with
  | init csz cpb mb tbl mem0 hcsz hcpb hlt =>
      exact ⟨[], poolInv_init csz cpb mb tbl mem0 hcsz hcpb hlt⟩
  | stepAlloc hr hfresh hok ih =>
      obtain ⟨free, hi⟩ := ih
      exact poolInv_alloc hi hfresh hok
  | stepDealloc hr hp ih =>
      obtain ⟨free, hi⟩ := ih
      exact ⟨_, poolInv_dealloc hi hp⟩

/-- C3: under the usage discipline — every `deallocate` targets a currently
outstanding allocation, nothing is double-deallocated, every `allocate`
succeeds, and `malloc` hands out blocks that do not overlap previously
recorded ones — any two simultaneously outstanding chunk addresses returned
by `allocate()` are at least `element_size` apart, i.e. their byte ranges
`[p, p + element_size)` are disjoint. -/
theorem C3_outstanding_no_overlap {s : PoolState} {out : List Nat}
    (h : Reach s out) {p1 p2 : Nat} (h1 : p1 ∈ out) (h2 : p2 ∈ out)
    (hne : p1 ≠ p2) :
    p1 + s.m_chunk_size ≤ p2 ∨ p2 + s.m_chunk_size ≤ p1 := by
  obtain ⟨free, hi⟩ := reach_poolInv h
  exact poolInv_no_overlap hi h1 h2 hne

/-- C3 witness: two allocations from `PoolAllocator<T>(2, 1)` with
`sizeof(T) = 16` and a block handed out at address 100 yield the outstanding
addresses 100 and 116, whose 16-byte ranges are disjoint. -/
theorem C3_outstanding_no_overlap_witness :
    100 + 16 ≤ 116 ∨ 116 + 16 ≤ 100 := by
  have h0 : Reach w3s0 [] :=
    Reach.init 16 2 1 1 (fun _ => 0) (by decide) (by decide) (by decide)
  have hok1 : allocate onePoolMalloc w3s0 = AllocResult.ok 100 w3s1 := rfl
  have h1 : Reach w3s1 [100] :=
    Reach.stepAlloc h0 (fun _ => fun k hk => absurd hk (Nat.not_lt_zero k)) hok1
  have hok2 : allocate onePoolMalloc w3s1 = AllocResult.ok 116 w3s2 := rfl
  have h2 : Reach w3s2 [116, 100] :=
    Reach.stepAlloc h1 (fun hz => absurd hz (by decide)) hok2
  exact C3_outstanding_no_overlap h2 (by decide) (by decide) (by decide)
